import Mathlib

/-!
Verification of the PrusaSlicer slicing-to-toolpath core (PrintObject slicing,
perimeter generation, G-code pipeline) against its natural-language
specification.

The polygon-clipping primitive library is an external capability of the
program (union / intersection / difference of polygon sets).  We model a
polygon set extensionally as a finite set of integer points in the XY plane;
the boolean operations `intersection_ex`, `diff_ex`, `union_` of the source
become the set operations `∩`, `\`, `∪`.  The morphological
`closing_ex`/`opening` cleanup passes with epsilon-scale radii are modelled
as the identity on the merged set (they only heal seams / kill slivers at
sub-resolution scale).  Machine floating point quantities that only feed
threshold comparisons are modelled as exact rationals.
-/

namespace Slic3r

/-- A point of the XY plane (scaled integer coordinates, as in the source). -/
abbrev Pt : Type := ℤ × ℤ

/-- A set of polygons (ExPolygons) modelled extensionally by the finite set of
points it covers. -/
abbrev PolySet : Type := Finset Pt

/-- The XY footprint of the 3D bounding box `PrintObjectRegions::BoundingBox`
attached to a `VolumeRegion` (the Z extent has already been tested by the
caller at the fixed slicing height). -/
structure BBox3 where
  xmin : ℤ
  xmax : ℤ
  ymin : ℤ
  ymax : ℤ
deriving DecidableEq, Repr

/-- Embeds `overlap_in_xy` of PrintObjectSlice: two bounding boxes overlap in
XY unless one lies strictly to the side of the other. -/
def overlap_in_xy (l r : BBox3) : Bool :=
  !(decide (l.xmax < r.xmin) || decide (l.xmin > r.xmax) ||
    decide (l.ymax < r.ymin) || decide (l.ymin > r.ymax))

/-- A point lies inside (the XY footprint of) a bounding box. -/
def inBBox (p : Pt) (b : BBox3) : Prop :=
  b.xmin ≤ p.1 ∧ p.1 ≤ b.xmax ∧ b.ymin ≤ p.2 ∧ p.2 ≤ b.ymax

instance (p : Pt) (b : BBox3) : Decidable (inBBox p b) := by
  unfold inBBox; infer_instance

/-- If two bounding boxes do not overlap in XY, no point lies in both. -/
theorem not_overlap_in_xy_disjoint {b1 b2 : BBox3}
    (h : overlap_in_xy b1 b2 = false) (p : Pt)
    (h1 : inBBox p b1) (h2 : inBBox p b2) : False := by
  obtain ⟨a1, a2, a3, a4⟩ := h1
  obtain ⟨c1, c2, c3, c4⟩ := h2
  simp only [overlap_in_xy, Bool.not_eq_false', Bool.or_eq_true,
    decide_eq_true_eq] at h
  rcases h with ((h | h) | h) | h <;> omega

/-- The type tag of a `ModelVolume` relevant to region resolution
(`MODEL_PART`, `NEGATIVE_VOLUME` or `PARAMETER_MODIFIER`; support volumes are
not sliced into regions). -/
inductive VolKind where
  | modelPart
  | negativeVolume
  | modifier
deriving DecidableEq, Repr

/-- One `PrintObjectRegions::VolumeRegion` of a layer range, together with the
per-Z slice does not live here: slices are passed separately, index-aligned.
`regionId` is `region->print_object_region_id()` when the region pointer is
set and `-1` otherwise (negative volumes carry no print region). -/
structure VolRegion where
  regionId : Int
  volId : ℕ
  kind : VolKind
  parent : ℕ
  bbox : BBox3
deriving DecidableEq, Repr

instance : Inhabited VolRegion := ⟨⟨-1, 0, VolKind.modelPart, 0, ⟨0, 0, 0, 0⟩⟩⟩

/-- The initial `temp_slices` state of the complex path of `slices_to_regions`
at one Z height: entry `i` holds the slice of volume region `i` at this Z. -/
def initSlices (slices : List PolySet) : ℕ → PolySet :=
  fun i => slices.getD i ∅

/-- Embeds the `is_model_part() || is_negative_volume()` branch of the complex
path of `slices_to_regions`: the freshly considered slice at `idx` is
subtracted from every preceding slice whose volume is not a negative volume
and whose bounding box overlaps in XY (the later volume wins). -/
def clipPreceding (es : List VolRegion) (s : ℕ → PolySet) (idx : ℕ) :
    ℕ → PolySet :=
  fun i =>
    if i < idx ∧ (es.getD i default).kind ≠ VolKind.negativeVolume ∧
        overlap_in_xy (es.getD idx default).bbox (es.getD i default).bbox = true
    then s i \ s idx
    else s i

/-- The condition under which `slices_to_regions` passes the source slice of a
modifier on to the next entry: the next volume region belongs to the very same
modifier volume. -/
def nextRegionSameModifier (es : List VolRegion) (idx : ℕ) : Prop :=
  idx + 1 < es.length ∧
    (es.getD (idx + 1) default).volId = (es.getD idx default).volId

instance (es : List VolRegion) (idx : ℕ) :
    Decidable (nextRegionSameModifier es idx) := by
  unfold nextRegionSameModifier; infer_instance

/-- Embeds the `is_modifier()` branch of the complex path of
`slices_to_regions`: the modifier slice becomes its intersection with the
parent slice (empty when the parent slice is empty), the parent loses the
modifier footprint, and when the next volume region belongs to the same
modifier volume the moved-out source slice is stored there for the following
iteration. -/
def modifierStep (es : List VolRegion) (s : ℕ → PolySet) (idx : ℕ) :
    ℕ → PolySet :=
  fun i =>
    if i = idx then
      (if s (es.getD idx default).parent = ∅ then ∅
       else s (es.getD idx default).parent ∩ s idx)
    else if nextRegionSameModifier es idx ∧ i = idx + 1 then s idx
    else if i = (es.getD idx default).parent then
      s (es.getD idx default).parent \ s idx
    else s i

/-- One iteration of the `for idx_region` loop of the complex path of
`slices_to_regions` (the body is skipped when the slice at `idx` is empty;
a modifier volume steals from its parent, a model part or negative volume
clips every preceding non-negative slice). -/
def regionStep (es : List VolRegion) (s : ℕ → PolySet) (idx : ℕ) :
    ℕ → PolySet :=
  fun i =>
    if s idx = ∅ then s i
    else if (es.getD idx default).kind = VolKind.modifier then
      modifierStep es s idx i
    else if (es.getD idx default).kind = VolKind.modelPart ∨
        (es.getD idx default).kind = VolKind.negativeVolume then
      clipPreceding es s idx i
    else s i

/-- The state of `temp_slices` after the first `k` iterations of the region
loop of `slices_to_regions` at one Z height. -/
def resolveUpTo (es : List VolRegion) (slices : List PolySet) (k : ℕ) :
    ℕ → PolySet :=
  (List.range k).foldl (regionStep es) (initSlices slices)

/-- The final `temp_slices` state of one Z height of `slices_to_regions`. -/
def resolveComplexZ (es : List VolRegion) (slices : List PolySet) :
    ℕ → PolySet :=
  resolveUpTo es slices es.length

/-- The polygon set that `slices_to_regions` stores into
`slices_by_region[r][z_idx]`: all surviving fragments with region id `r`,
concatenated (the `closing_ex` seam healing is modelled as the identity on
the merged set). -/
def regionOutput (es : List VolRegion) (slices : List PolySet) (r : Int) :
    PolySet :=
  (List.range es.length).foldl
    (fun acc i =>
      if (es.getD i default).regionId = r then acc ∪ resolveComplexZ es slices i
      else acc) ∅

/-- Well-formedness of the volume regions of a layer range, as established by
`PrintObjectRegions` construction: every slice lies inside its volume bounding
box, a modifier's parent precedes it and is not a negative volume (the parent
may be a model part or itself a modifier — modifiers chain on modifiers),
volume regions of the same model volume share its bounding box, and negative
volumes carry no print region. -/
def WellFormedRegions (es : List VolRegion) (slices : List PolySet) : Prop :=
  (∀ i, i < es.length → ∀ p ∈ slices.getD i ∅, inBBox p (es.getD i default).bbox) ∧
  (∀ i, i < es.length → (es.getD i default).kind = VolKind.modifier →
    (es.getD i default).parent < i ∧
    (es.getD (es.getD i default).parent default).kind ≠
      VolKind.negativeVolume) ∧
  (∀ i, i < es.length → ∀ j, j < es.length →
    (es.getD i default).volId = (es.getD j default).volId →
    (es.getD i default).bbox = (es.getD j default).bbox) ∧
  (∀ i, i < es.length → (es.getD i default).kind = VolKind.negativeVolume →
    (es.getD i default).regionId < 0)

instance (es : List VolRegion) (slices : List PolySet) :
    Decidable (WellFormedRegions es slices) := by
  unfold WellFormedRegions; infer_instance

/-- Two subsets of disjoint polygon sets are disjoint. -/
theorem inter_eq_empty_of_subsets {a b c d : PolySet}
    (hab : a ⊆ b) (hcd : c ⊆ d) (h : b ∩ d = ∅) : a ∩ c = ∅ :=
  Finset.subset_empty.mp (h ▸ Finset.inter_subset_inter hab hcd)

/-- A set difference is disjoint from an intersection with the subtrahend. -/
theorem sdiff_inter_inter_eq_empty (a b c : PolySet) :
    (a \ b) ∩ (c ∩ b) = ∅ := by
  rw [Finset.eq_empty_iff_forall_not_mem]
  intro p hp
  rw [Finset.mem_inter, Finset.mem_sdiff, Finset.mem_inter] at hp
  exact hp.1.2 hp.2.2

/-- Clipping by a later slice only shrinks a preceding slice. -/
theorem clipPreceding_subset (es : List VolRegion) (s : ℕ → PolySet)
    (idx i : ℕ) : clipPreceding es s idx i ⊆ s i := by
  simp only [clipPreceding]
  split
  · exact Finset.sdiff_subset
  · exact Finset.Subset.refl _

/-- The slice under consideration is untouched by `clipPreceding`. -/
theorem clipPreceding_self (es : List VolRegion) (s : ℕ → PolySet)
    (idx : ℕ) : clipPreceding es s idx idx = s idx := by
  simp only [clipPreceding]
  rw [if_neg]
  rintro ⟨h, -⟩
  exact absurd h (lt_irrefl idx)

/-- Entries preceding a processed modifier only shrink. -/
theorem modifierStep_subset_of_lt (es : List VolRegion) (s : ℕ → PolySet)
    {idx i : ℕ} (h : i < idx) : modifierStep es s idx i ⊆ s i := by
  simp only [modifierStep]
  rw [if_neg (by omega)]
  rw [if_neg (by rintro ⟨-, h2⟩; omega)]
  split
  next hpar =>
    rw [hpar]
    exact Finset.sdiff_subset
  next => exact Finset.Subset.refl _

/-- Entries preceding the processed index only shrink in one region step. -/
theorem regionStep_subset_of_lt (es : List VolRegion) (s : ℕ → PolySet)
    {idx i : ℕ} (h : i < idx) : regionStep es s idx i ⊆ s i := by
  simp only [regionStep]
  split
  · exact Finset.Subset.refl _
  split
  · exact modifierStep_subset_of_lt es s h
  split
  · exact clipPreceding_subset es s idx i
  · exact Finset.Subset.refl _

/-- One iteration of the region loop of `slices_to_regions` preserves the
bounding-box containment of every slice and extends pairwise disjointness of
non-negative slices to the processed prefix. -/
theorem regionStep_invariant (es : List VolRegion) (slices : List PolySet)
    (hwf : WellFormedRegions es slices) (s : ℕ → PolySet) (k : ℕ)
    (hk : k < es.length)
    (hA : ∀ i, i < es.length → ∀ p ∈ s i, inBBox p (es.getD i default).bbox)
    (hB : ∀ i j, i < k → j < k → i ≠ j →
      (es.getD i default).kind ≠ VolKind.negativeVolume →
      (es.getD j default).kind ≠ VolKind.negativeVolume →
      s i ∩ s j = ∅) :
    (∀ i, i < es.length → ∀ p ∈ regionStep es s k i,
      inBBox p (es.getD i default).bbox) ∧
    (∀ i j, i < k + 1 → j < k + 1 → i ≠ j →
      (es.getD i default).kind ≠ VolKind.negativeVolume →
      (es.getD j default).kind ≠ VolKind.negativeVolume →
      regionStep es s k i ∩ regionStep es s k j = ∅) := by
  by_cases hempty : s k = ∅
  · have hstep : ∀ i, regionStep es s k i = s i := by
      intro i
      simp only [regionStep]
      rw [if_pos hempty]
    constructor
    · intro i hi p hp
      rw [hstep] at hp
      exact hA i hi p hp
    · intro i j hi hj hij hni hnj
      rw [hstep, hstep]
      rcases Nat.lt_or_ge i k with hik | hik
      · rcases Nat.lt_or_ge j k with hjk | hjk
        · exact hB i j hik hjk hij hni hnj
        · have : j = k := by omega
          rw [this, hempty, Finset.inter_empty]
      · have : i = k := by omega
        rw [this, hempty, Finset.empty_inter]
  by_cases hmod : (es.getD k default).kind = VolKind.modifier
  · -- Modifier branch: steal from the parent.
    obtain ⟨hplt, hpnneg⟩ := hwf.2.1 k hk hmod
    have hstep : ∀ i, regionStep es s k i = modifierStep es s k i := by
      intro i
      simp only [regionStep]
      rw [if_neg hempty, if_pos hmod]
    have hself : modifierStep es s k k =
        (if s (es.getD k default).parent = ∅ then ∅
         else s (es.getD k default).parent ∩ s k) := by
      simp only [modifierStep, if_true]
    have hparval : modifierStep es s k (es.getD k default).parent =
        s (es.getD k default).parent \ s k := by
      simp only [modifierStep, if_true]
      rw [if_neg (by omega), if_neg (by rintro ⟨-, h2⟩; omega)]
    have hother : ∀ i, ¬i = k → ¬i = (es.getD k default).parent →
        ¬(nextRegionSameModifier es k ∧ i = k + 1) →
        modifierStep es s k i = s i := by
      intro i h1 h2 h3
      simp only [modifierStep]
      rw [if_neg h1, if_neg h3, if_neg h2]
    have hnext : ∀ i, nextRegionSameModifier es k → i = k + 1 →
        modifierStep es s k i = s k := by
      intro i hns hik
      simp only [modifierStep]
      rw [if_neg (by omega), if_pos ⟨hns, hik⟩]
    constructor
    · intro i hi p hp
      rw [hstep] at hp
      by_cases hik : i = k
      · rw [hik] at hp ⊢
        rw [hself] at hp
        split at hp
        · exact absurd hp (Finset.not_mem_empty p)
        · exact hA k hk p (Finset.mem_inter.mp hp).2
      by_cases hnexti : nextRegionSameModifier es k ∧ i = k + 1
      · rw [hnext i hnexti.1 hnexti.2] at hp
        have hbb : (es.getD i default).bbox = (es.getD k default).bbox := by
          apply hwf.2.2.1 i hi k hk
          rw [hnexti.2]
          exact hnexti.1.2
        rw [hbb]
        exact hA k hk p hp
      by_cases hip : i = (es.getD k default).parent
      · rw [hip] at hp ⊢
        rw [hparval] at hp
        exact hA ((es.getD k default).parent) (by omega) p
          (Finset.mem_sdiff.mp hp).1
      · rw [hother i hik hip hnexti] at hp
        exact hA i hi p hp
    · intro i j hi hj hij hni hnj
      rw [hstep, hstep]
      -- Entries below k only shrink; fresh pairs involve index k itself.
      rcases Nat.lt_or_ge i k with hik | hik
      · rcases Nat.lt_or_ge j k with hjk | hjk
        · exact inter_eq_empty_of_subsets (modifierStep_subset_of_lt es s hik)
            (modifierStep_subset_of_lt es s hjk) (hB i j hik hjk hij hni hnj)
        · have hjks : j = k := by omega
          rw [hjks, hself]
          split
          · rw [Finset.inter_empty]
          next hpne =>
            by_cases hip : i = (es.getD k default).parent
            · rw [hip, hparval]
              exact sdiff_inter_inter_eq_empty _ _ _
            · refine inter_eq_empty_of_subsets
                (modifierStep_subset_of_lt es s hik)
                Finset.inter_subset_left ?_
              exact hB i ((es.getD k default).parent) hik hplt hip hni hpnneg
      · have hiks : i = k := by omega
        have hjk : j < k := by omega
        rw [hiks, Finset.inter_comm, hself]
        split
        · rw [Finset.inter_empty]
        next hpne =>
          by_cases hjp : j = (es.getD k default).parent
          · rw [hjp, hparval]
            exact sdiff_inter_inter_eq_empty _ _ _
          · refine inter_eq_empty_of_subsets
              (modifierStep_subset_of_lt es s hjk)
              Finset.inter_subset_left ?_
            exact hB j ((es.getD k default).parent) hjk hplt hjp hnj hpnneg
  · -- Model part / negative volume branch: clip every preceding slice.
    have hcases : (es.getD k default).kind = VolKind.modelPart ∨
        (es.getD k default).kind = VolKind.negativeVolume := by
      cases h : (es.getD k default).kind
      · exact Or.inl rfl
      · exact Or.inr rfl
      · exact absurd h hmod
    have hstep : ∀ i, regionStep es s k i = clipPreceding es s k i := by
      intro i
      simp only [regionStep]
      rw [if_neg hempty, if_neg hmod, if_pos hcases]
    have hclip_k : ∀ i, i < k →
        (es.getD i default).kind ≠ VolKind.negativeVolume →
        clipPreceding es s k i ∩ s k = ∅ := by
      intro i hik hni
      by_cases hovl : overlap_in_xy (es.getD k default).bbox
          (es.getD i default).bbox = true
      · have hval : clipPreceding es s k i = s i \ s k := by
          simp only [clipPreceding]
          rw [if_pos ⟨hik, hni, hovl⟩]
        rw [hval, Finset.eq_empty_iff_forall_not_mem]
        intro p hp
        rw [Finset.mem_inter, Finset.mem_sdiff] at hp
        exact hp.1.2 hp.2
      · have hval : clipPreceding es s k i = s i := by
          simp only [clipPreceding]
          rw [if_neg]
          rintro ⟨-, -, h3⟩
          exact hovl h3
        rw [hval, Finset.eq_empty_iff_forall_not_mem]
        intro p hp
        rw [Finset.mem_inter] at hp
        exact not_overlap_in_xy_disjoint (Bool.not_eq_true _ ▸ hovl) p
          (hA k hk p hp.2) (hA i (by omega) p hp.1)
    constructor
    · intro i hi p hp
      rw [hstep] at hp
      exact hA i hi p (clipPreceding_subset es s k i hp)
    · intro i j hi hj hij hni hnj
      rw [hstep, hstep]
      rcases Nat.lt_or_ge i k with hik | hik
      · rcases Nat.lt_or_ge j k with hjk | hjk
        · exact inter_eq_empty_of_subsets (clipPreceding_subset es s k i)
            (clipPreceding_subset es s k j) (hB i j hik hjk hij hni hnj)
        · have hjks : j = k := by omega
          rw [hjks, clipPreceding_self]
          exact hclip_k i hik hni
      · have hiks : i = k := by omega
        have hjk : j < k := by omega
        rw [hiks, clipPreceding_self, Finset.inter_comm]
        exact hclip_k j hjk hnj

/-- After the first `k` iterations of the region loop every slice still lies
in its bounding box and all processed non-negative slices are pairwise
disjoint. -/
theorem resolveUpTo_invariant (es : List VolRegion) (slices : List PolySet)
    (hwf : WellFormedRegions es slices) (k : ℕ) (hk : k ≤ es.length) :
    (∀ i, i < es.length → ∀ p ∈ resolveUpTo es slices k i,
      inBBox p (es.getD i default).bbox) ∧
    (∀ i j, i < k → j < k → i ≠ j →
      (es.getD i default).kind ≠ VolKind.negativeVolume →
      (es.getD j default).kind ≠ VolKind.negativeVolume →
      resolveUpTo es slices k i ∩ resolveUpTo es slices k j = ∅) := by
  induction k with
  | zero =>
    constructor
    · intro i hi p hp
      exact hwf.1 i hi p hp
    · intro i j hi _ _ _ _
      exact absurd hi (Nat.not_lt_zero i)
  | succ k ih =>
    have hk' : k < es.length := hk
    have hstep : resolveUpTo es slices (k + 1) =
        regionStep es (resolveUpTo es slices k) k := by
      unfold resolveUpTo
      rw [List.range_succ, List.foldl_append, List.foldl_cons, List.foldl_nil]
    obtain ⟨ihA, ihB⟩ := ih (le_of_lt hk')
    rw [hstep]
    exact regionStep_invariant es slices hwf (resolveUpTo es slices k) k hk'
      ihA ihB

/-- Membership in a guarded fold of unions. -/
theorem mem_foldl_union (f : ℕ → PolySet) (P : ℕ → Prop) [DecidablePred P]
    (l : List ℕ) (acc : PolySet) (p : Pt) :
    (p ∈ l.foldl (fun a i => if P i then a ∪ f i else a) acc ↔
      p ∈ acc ∨ ∃ i ∈ l, P i ∧ p ∈ f i) := by
  induction l generalizing acc with
  | nil => simp
  | cons x xs ih =>
    rw [List.foldl_cons, ih]
    by_cases hx : P x
    · simp only [hx, if_true, Finset.mem_union, List.mem_cons]
      constructor
      · rintro ((h | h) | ⟨i, hi, hPi, hpi⟩)
        · exact Or.inl h
        · exact Or.inr ⟨x, Or.inl rfl, hx, h⟩
        · exact Or.inr ⟨i, Or.inr hi, hPi, hpi⟩
      · rintro (h | ⟨i, (rfl | hi), hPi, hpi⟩)
        · exact Or.inl (Or.inl h)
        · exact Or.inl (Or.inr hpi)
        · exact Or.inr ⟨i, hi, hPi, hpi⟩
    · simp only [hx, if_false, List.mem_cons]
      constructor
      · rintro (h | ⟨i, hi, hPi, hpi⟩)
        · exact Or.inl h
        · exact Or.inr ⟨i, Or.inr hi, hPi, hpi⟩
      · rintro (h | ⟨i, (rfl | hi), hPi, hpi⟩)
        · exact Or.inl h
        · exact absurd hPi hx
        · exact Or.inr ⟨i, hi, hPi, hpi⟩

/-- A point belongs to the output of a region exactly when some volume region
with that region id still covers it after the resolution loop. -/
theorem mem_regionOutput (es : List VolRegion) (slices : List PolySet)
    (r : Int) (p : Pt) :
    (p ∈ regionOutput es slices r ↔
      ∃ i, i < es.length ∧ (es.getD i default).regionId = r ∧
        p ∈ resolveComplexZ es slices i) := by
  unfold regionOutput
  rw [mem_foldl_union (fun i => resolveComplexZ es slices i)
    (fun i => (es.getD i default).regionId = r)]
  simp only [Finset.not_mem_empty, false_or, List.mem_range]

/-- C1: for every slicing Z height, the polygon sets that region resolution
(`slices_to_regions`) assigns to distinct `PrintRegion`s never overlap each
other in XY: for any two different (non-negative) region ids, the
intersection of their output polygon sets at the same Z index is empty. -/
theorem slices_to_regions_region_outputs_disjoint
    (es : List VolRegion) (slices : List PolySet)
    (hwf : WellFormedRegions es slices)
    (r1 r2 : Int) (hr1 : 0 ≤ r1) (hr2 : 0 ≤ r2) (hne : r1 ≠ r2) :
    regionOutput es slices r1 ∩ regionOutput es slices r2 = ∅ := by
  rw [Finset.eq_empty_iff_forall_not_mem]
  intro p hp
  rw [Finset.mem_inter, mem_regionOutput, mem_regionOutput] at hp
  obtain ⟨⟨i, hi, hri, hpi⟩, ⟨j, hj, hrj, hpj⟩⟩ := hp
  have hij : i ≠ j := by
    rintro rfl
    rw [hri] at hrj
    exact hne hrj
  have hni : (es.getD i default).kind ≠ VolKind.negativeVolume := by
    intro hneg
    have := hwf.2.2.2 i hi hneg
    omega
  have hnj : (es.getD j default).kind ≠ VolKind.negativeVolume := by
    intro hneg
    have := hwf.2.2.2 j hj hneg
    omega
  have hdisj := (resolveUpTo_invariant es slices hwf es.length
    (le_refl es.length)).2 i j hi hj hij hni hnj
  have : p ∈ resolveComplexZ es slices i ∩ resolveComplexZ es slices j :=
    Finset.mem_inter.mpr ⟨hpi, hpj⟩
  unfold resolveComplexZ at this
  rw [hdisj] at this
  exact absurd this (Finset.not_mem_empty p)

/-- A concrete layer range with two overlapping model parts feeding two print
regions: the later volume steals the shared point from the earlier one. -/
def exampleVolRegions : List VolRegion :=
  [⟨0, 10, VolKind.modelPart, 0, ⟨0, 5, 0, 5⟩⟩,
   ⟨1, 11, VolKind.modelPart, 0, ⟨0, 5, 0, 5⟩⟩]

/-- Slices of the two example volumes at one Z height; they overlap at the
point `(1, 1)`. -/
def exampleVolSlices : List PolySet :=
  [{(0, 0), (1, 1)}, {(1, 1)}]

/-- Witness for C1: the example input is well formed and the outputs the
resolution assigns to region ids 0 and 1 are disjoint. -/
theorem slices_to_regions_region_outputs_disjoint_witness :
    WellFormedRegions exampleVolRegions exampleVolSlices ∧
    regionOutput exampleVolRegions exampleVolSlices 0 ∩
      regionOutput exampleVolRegions exampleVolSlices 1 = ∅ :=
  ⟨by decide,
   slices_to_regions_region_outputs_disjoint exampleVolRegions
     exampleVolSlices (by decide) 0 1 (by decide) (by decide) (by decide)⟩

/-!
Extra perimeters over overhangs (`generate_extra_perimeters_over_overhangs`
of PerimeterGenerator.cpp).  The per-island loop computes
`unbridgeable_area = area(diff(real_overhang, {anchoring_convex_hull}))` and
`(dir, unsupp_dist) = detect_bridging_direction(real_overhang, anchors)`
(both external geometric capabilities, passed in here as rationals), then
tests `unbridgeable_area < 0.2 * area(real_overhang) && unsupp_dist <
total_length(real_overhang) * 0.2`.  When the test passes the island is
pushed to `inset_overhang_area_left_unfilled` and `perimeter_polygon` is
cleared, so no extrusion path is appended for it; only in the else branch is
the overhang filled with extra perimeters.  The double constant `0.2` is the
exact rational `2/10` here.
-/

/-- What the per-island loop of `generate_extra_perimeters_over_overhangs`
does with one contiguous overhang island. -/
inductive OverhangIslandAction where
  | leftUnfilled
  | extraPerimeters
deriving DecidableEq, Repr

/-- The decision of the per-island loop of
`generate_extra_perimeters_over_overhangs`: an island with an empty
`real_overhang` is skipped, an island passing the bridgeability test is left
unfilled (handled by bridging), and only the remaining islands are filled
with extra perimeters. -/
def overhang_island_action (real_overhang_is_empty : Bool)
    (unbridgeable_area overhang_area unsupp_dist total_bridge_length : ℚ) :
    OverhangIslandAction :=
  if real_overhang_is_empty then OverhangIslandAction.leftUnfilled
  else if unbridgeable_area < (2 / 10) * overhang_area ∧
      unsupp_dist < total_bridge_length * (2 / 10) then
    OverhangIslandAction.leftUnfilled
  else OverhangIslandAction.extraPerimeters

/-- Counterexample for C2: an island with 10% unbridgeable area and 10%
unsupported span (both below the 20% thresholds) receives no extra
perimeters, while an island with 90% unbridgeable area (failing the
thresholds) does receive them — the opposite of the claim. -/
theorem generate_extra_perimeters_thresholds_counterexample :
    overhang_island_action false 1 10 1 10 =
      OverhangIslandAction.leftUnfilled ∧
    ((1 : ℚ) < (2 / 10) * 10 ∧ (1 : ℚ) < 10 * (2 / 10)) ∧
    overhang_island_action false 9 10 9 10 =
      OverhangIslandAction.extraPerimeters ∧
    ¬((9 : ℚ) < (2 / 10) * 10) := by
  refine ⟨?_, ⟨by norm_num, by norm_num⟩, ?_, by norm_num⟩
  · simp only [overhang_island_action]
    norm_num
  · simp only [overhang_island_action]
    norm_num

/-- C2 (amended): `generate_extra_perimeters_over_overhangs` synthesizes
extra perimeter rings for a contiguous overhang island (with a non-empty
unsupported part) exactly when the island fails the bridgeability test, i.e.
when its unbridgeable area is at least 20% of its overhang area or its
unsupported span is at least 20% of the total bridge length; islands passing
both thresholds are left unfilled, to be handled by ordinary bridging. -/
theorem generate_extra_perimeters_over_overhangs_thresholds
    (unbridgeable_area overhang_area unsupp_dist total_bridge_length : ℚ) :
    (overhang_island_action false unbridgeable_area overhang_area unsupp_dist
        total_bridge_length = OverhangIslandAction.extraPerimeters ↔
      ¬(unbridgeable_area < (2 / 10) * overhang_area ∧
        unsupp_dist < total_bridge_length * (2 / 10))) := by
  simp only [overhang_island_action, Bool.false_eq_true, if_false]
  split
  next h =>
    exact iff_of_false (by intro hc; cases hc) (not_not_intro h)
  next h =>
    simp [h]

/-!
XY size compensation versus multi-material / fuzzy-skin painting
(`slice_volumes_inner` and `PrintObject::slice_volumes`).
`slice_volumes_inner` computes the positive compensation `extra_offset` as 0
whenever the object is multi-material painted with more than one extruder;
the make_slices part of `slice_volumes` computes the negative compensation
`xy_compensation_scaled` as 0 under the same condition.  Fuzzy-skin painting
triggers a user warning stating that the compensation will not be used, but
appears in neither compensation computation.
-/

/-- The configuration and painting state of one object as consumed by the XY
compensation decisions of `PrintObject::slice_volumes`. -/
structure XYCompensationInput where
  num_extruders : ℕ
  mm_painted : Bool
  fuzzy_skin_painted : Bool
  xy_size_compensation : ℚ

/-- The `is_mm_painted` test of `slice_volumes_inner` (and of the
make_slices block): multi-material painting counts only with more than one
extruder. -/
def is_mm_painted_active (c : XYCompensationInput) : Bool :=
  decide (1 < c.num_extruders) && c.mm_painted

/-- The positive XY compensation `extra_offset` that `slice_volumes_inner`
passes to the mesh slicer (`is_mm_painted ? 0.f : max(0.f,
xy_size_compensation)`). -/
def extra_offset (c : XYCompensationInput) : ℚ :=
  if is_mm_painted_active c then 0 else max 0 c.xy_size_compensation

/-- The negative XY compensation that the make_slices part of
`PrintObject::slice_volumes` applies
(`is_mm_painted ? 0 : min(xy_size_compensation, 0)`). -/
def xy_compensation_scaled (c : XYCompensationInput) : ℚ :=
  if is_mm_painted_active c then 0 else min c.xy_size_compensation 0

/-- Whether `slice_volumes` appends the multi-material painting warning about
unused XY compensation. -/
def warns_mm_compensation (c : XYCompensationInput) : Bool :=
  is_mm_painted_active c && decide (c.xy_size_compensation ≠ 0)

/-- Whether `slice_volumes` appends the fuzzy-skin painting warning about
unused XY compensation. -/
def warns_fuzzy_compensation (c : XYCompensationInput) : Bool :=
  c.fuzzy_skin_painted && decide (c.xy_size_compensation ≠ 0)

/-- The compensation is actually dropped for the object: neither the
positive nor the negative XY offset is applied anywhere. -/
def compensation_dropped (c : XYCompensationInput) : Prop :=
  extra_offset c = 0 ∧ xy_compensation_scaled c = 0

/-- C3 (code bug): for a fuzzy-skin painted object that is not multi-material
painted (here: one extruder, compensation 1mm), `slice_volumes` appends the
warning that XY size compensation will not be used, yet the positive
compensation is still applied while slicing (`extra_offset = 1`), and with a
negative setting (-1mm) the negative compensation is likewise still applied.
The code contradicts its own warning message; only the multi-material case
drops the compensation as the claim describes. -/
theorem xy_compensation_fuzzy_skin_not_dropped :
    warns_fuzzy_compensation ⟨1, false, true, 1⟩ = true ∧
    extra_offset ⟨1, false, true, 1⟩ = 1 ∧
    ¬compensation_dropped ⟨1, false, true, 1⟩ ∧
    warns_fuzzy_compensation ⟨1, false, true, -1⟩ = true ∧
    xy_compensation_scaled ⟨1, false, true, -1⟩ = -1 ∧
    warns_mm_compensation ⟨2, true, false, 1⟩ = true ∧
    compensation_dropped ⟨2, true, false, 1⟩ := by
  refine ⟨by decide, ?_, ?_, by decide, ?_, by decide, ?_, ?_⟩
  · simp [extra_offset, is_mm_painted_active]
  · intro hdrop
    have h1 : extra_offset ⟨1, false, true, 1⟩ = 1 := by
      simp [extra_offset, is_mm_painted_active]
    rw [hdrop.1] at h1
    norm_num at h1
  · simp [xy_compensation_scaled, is_mm_painted_active]
  · simp [extra_offset, is_mm_painted_active]
  · simp [xy_compensation_scaled, is_mm_painted_active]

/-!
Paint-based reclassification (`apply_mm_segmentation` and
`apply_fuzzy_skin_segmentation` of PrintObjectSlice).  For one parent
`LayerRegion` the multi-material trim block subtracts the per-extruder paint
masks from the parent polygons with the condition
`&segmented - by_extruder.data() + 1 != self_extruder_id &&
segmented.bbox.defined && parent_layer_region_bbox.overlap(segmented.bbox)`,
where `self_extruder_id` was set in the stealing loop exactly for the
extruder whose painted target region is the parent print region itself
(at most one extruder targets the parent, since distinct extruders map to
distinct painted print regions).  Net effect, modelled here: a mask is
subtracted iff its painted target region differs from the parent region, its
bounding box is defined, and it overlaps the parent bounding box.  The small
morphological `opening` cleanup that follows is outside the scope of this
claim.  The fuzzy-skin variant has exactly one mask and subtracts it iff the
bounding boxes overlap and the target region is not the parent itself.
-/

/-- One per-extruder entry of the `by_extruder` scratch of
`apply_mm_segmentation`, together with the painted region this extruder
targets for the current parent (`it_target_region->region`). -/
structure PaintMask where
  expolygons : PolySet
  bbox_defined : Bool
  bbox : BBox3
  target_region_id : Int
deriving DecidableEq

instance : Inhabited PaintMask := ⟨⟨∅, false, ⟨0, 0, 0, 0⟩, -1⟩⟩

/-- The condition under which the trim block of `apply_mm_segmentation`
subtracts one extruder's mask from the parent polygons. -/
def mm_mask_subtracted (parent_region_id : Int) (parent_bbox : BBox3)
    (m : PaintMask) : Prop :=
  m.target_region_id ≠ parent_region_id ∧ m.bbox_defined = true ∧
    overlap_in_xy parent_bbox m.bbox = true

instance (prid : Int) (pbb : BBox3) (m : PaintMask) :
    Decidable (mm_mask_subtracted prid pbb m) := by
  unfold mm_mask_subtracted; infer_instance

/-- The trim block of `apply_mm_segmentation`: starting from the parent
region polygons (`mine`), subtract every qualifying extruder mask in order
(the early break when `mine` becomes empty does not change the result). -/
def mm_trim (parent : PolySet) (parent_region_id : Int) (parent_bbox : BBox3)
    (masks : List PaintMask) : PolySet :=
  masks.foldl
    (fun mine m =>
      if mm_mask_subtracted parent_region_id parent_bbox m then
        mine \ m.expolygons
      else mine) parent

/-- The trim step of `apply_fuzzy_skin_segmentation`: the single fuzzy-skin
mask is subtracted from the parent polygons only when the bounding boxes
overlap and the painted target region is not the parent print region
itself. -/
def fuzzy_trim (parent : PolySet) (bbox_overlap : Bool)
    (target_is_parent : Bool) (mask : PolySet) : PolySet :=
  if bbox_overlap = true ∧ target_is_parent = false then parent \ mask
  else parent

/-- Membership in a fold of guarded set differences. -/
theorem mem_foldl_sdiff {α : Type} (Q : α → Prop) [DecidablePred Q]
    (f : α → PolySet) (l : List α) (acc : PolySet) (p : Pt) :
    (p ∈ l.foldl (fun a m => if Q m then a \ f m else a) acc ↔
      p ∈ acc ∧ ∀ m ∈ l, Q m → p ∉ f m) := by
  induction l generalizing acc with
  | nil => simp
  | cons x xs ih =>
    rw [List.foldl_cons, ih]
    by_cases hx : Q x
    · simp only [hx, if_true, Finset.mem_sdiff, List.mem_cons]
      constructor
      · rintro ⟨⟨hacc, hnx⟩, hall⟩
        refine ⟨hacc, ?_⟩
        rintro m (rfl | hm) hQ
        · exact hnx
        · exact hall m hm hQ
      · rintro ⟨hacc, hall⟩
        exact ⟨⟨hacc, hall x (Or.inl rfl) hx⟩,
          fun m hm hQ => hall m (Or.inr hm) hQ⟩
    · simp only [hx, if_false, List.mem_cons]
      constructor
      · rintro ⟨hacc, hall⟩
        refine ⟨hacc, ?_⟩
        rintro m (rfl | hm) hQ
        · exact absurd hQ hx
        · exact hall m hm hQ
      · rintro ⟨hacc, hall⟩
        exact ⟨hacc, fun m hm hQ => hall m (Or.inr hm) hQ⟩

/-- C4: during multi-material and fuzzy-skin paint reclassification, every
overlapping paint mask is subtracted from the parent LayerRegion polygon set
except the mask whose painted target region is the parent itself, which is
never subtracted: a point of the parent survives the multi-material trim
exactly when no mask with a different target region, a defined bounding box
and an overlapping bounding box covers it (the mask targeting the parent is
irrelevant), and the fuzzy-skin trim removes a parent point exactly when the
mask covers it, the boxes overlap, and the target region is not the parent. -/
theorem paint_reclassification_never_trims_by_self
    (parent : PolySet) (parent_region_id : Int) (parent_bbox : BBox3)
    (masks : List PaintMask) (mask : PolySet)
    (bbox_overlap target_is_parent : Bool) (p : Pt) :
    (p ∈ mm_trim parent parent_region_id parent_bbox masks ↔
      p ∈ parent ∧ ∀ m ∈ masks,
        m.target_region_id ≠ parent_region_id → m.bbox_defined = true →
        overlap_in_xy parent_bbox m.bbox = true → p ∉ m.expolygons) ∧
    (p ∈ fuzzy_trim parent bbox_overlap target_is_parent mask ↔
      p ∈ parent ∧ ¬(bbox_overlap = true ∧ target_is_parent = false ∧
        p ∈ mask)) := by
  constructor
  · unfold mm_trim
    rw [mem_foldl_sdiff (mm_mask_subtracted parent_region_id parent_bbox)
      (fun m => m.expolygons) masks parent p]
    constructor
    · rintro ⟨hacc, hall⟩
      exact ⟨hacc, fun m hm h1 h2 h3 => hall m hm ⟨h1, h2, h3⟩⟩
    · rintro ⟨hacc, hall⟩
      exact ⟨hacc, fun m hm hq => hall m hm hq.1 hq.2.1 hq.2.2⟩
  · unfold fuzzy_trim
    split
    next h =>
      rw [Finset.mem_sdiff]
      constructor
      · rintro ⟨hp, hnm⟩
        exact ⟨hp, by rintro ⟨-, -, hm⟩; exact hnm hm⟩
      · rintro ⟨hp, hn⟩
        exact ⟨hp, fun hm => hn ⟨h.1, h.2, hm⟩⟩
    next h =>
      constructor
      · intro hp
        refine ⟨hp, ?_⟩
        rintro ⟨h1, h2, -⟩
        exact h ⟨h1, h2⟩
      · intro hp
        exact hp.1

/-!
Volume slicing (`slice_volumes_inner` of PrintObjectSlice).  For every model
volume that needs slicing and is contained in some layer range, an entry
`{volume_id, slices}` is pushed; immediately afterwards the loop runs
`if (!out.empty() && out.back().slices.empty()) out.pop_back();`, which
drops the entry again when its slice VECTOR is empty (empty mesh, no Z
heights, or no Z inside the volume ranges) — not when every per-Z polygon
set in a non-empty vector is empty.
-/

/-- The `ModelVolume` type tags of the source. -/
inductive ModelVolumeType where
  | modelPart
  | negativeVolume
  | parameterModifier
  | supportBlocker
  | supportEnforcer
deriving DecidableEq, Repr

/-- `model_volume_needs_slicing`: model parts, negative volumes and
parameter modifiers are sliced. -/
def model_volume_needs_slicing (t : ModelVolumeType) : Bool :=
  decide (t = ModelVolumeType.modelPart) ||
  decide (t = ModelVolumeType.negativeVolume) ||
  decide (t = ModelVolumeType.parameterModifier)

/-- A model volume as consumed by `slice_volumes_inner`: its id, its type,
whether some layer range contains it (`layer_range.has_volume`), and the
per-Z slices returned for it by the mesh slicer (an external capability;
the empty list models an empty mesh, no Z heights, or no Z inside the
slicing ranges, in which case `slice_volume` returns an empty vector). -/
structure MVolume where
  vid : ℕ
  vtype : ModelVolumeType
  in_layer_ranges : Bool
  slices : List PolySet
deriving DecidableEq

/-- `VolumeSlices`: the association of a volume id with its per-Z polygon
stack. -/
structure VolumeSlices where
  volume_id : ℕ
  slices : List PolySet
deriving DecidableEq

/-- One iteration of the volume loop of `slice_volumes_inner`: push the
sliced entry when the volume needs slicing and is inside some layer range,
then pop the last entry again when its slice vector is empty. -/
def slice_volumes_inner_step (out : List VolumeSlices) (mv : MVolume) :
    List VolumeSlices :=
  if model_volume_needs_slicing mv.vtype then
    let out2 := if mv.in_layer_ranges then out ++ [⟨mv.vid, mv.slices⟩]
                else out
    match out2.getLast? with
    | some last => if last.slices = [] then out2.dropLast else out2
    | none => out2
  else out

/-- Embeds the volume loop of `slice_volumes_inner` (the sorting by volume
id and the slicing-parameter setup do not affect which entries survive). -/
def slice_volumes_inner (vols : List MVolume) : List VolumeSlices :=
  vols.foldl slice_volumes_inner_step []

/-- Counterexample for C5: a model part volume whose mesh intersects no
slicing plane yields a slice vector with one Z height holding an empty
polygon set; the vector is non-empty, so the `out.back().slices.empty()`
test fails and the volume is NOT dropped although its sliced result is
empty at every Z height. -/
theorem slice_volumes_inner_keeps_all_empty_volume :
    slice_volumes_inner [⟨0, ModelVolumeType.modelPart, true, [∅]⟩] =
      [⟨0, [∅]⟩] ∧
    ∀ zslice ∈ (⟨0, [(∅ : PolySet)]⟩ : VolumeSlices).slices, zslice = ∅ := by
  constructor
  · rfl
  · intro zslice hz
    simp only [List.mem_singleton] at hz
    exact hz

/-- One step of the volume loop keeps the invariant that every accumulated
entry has a non-empty slice vector. -/
theorem slice_volumes_inner_step_nonempty (acc : List VolumeSlices)
    (mv : MVolume) (hacc : ∀ x ∈ acc, x.slices ≠ []) :
    ∀ y ∈ slice_volumes_inner_step acc mv, y.slices ≠ [] := by
  intro y hy
  unfold slice_volumes_inner_step at hy
  split at hy
  · revert hy
    by_cases hin : mv.in_layer_ranges = true
    · simp only [hin, if_true]
      rw [List.getLast?_concat]
      by_cases hms : mv.slices = []
      · -- The freshly pushed entry had an empty vector and is popped again.
        simp only [hms, if_pos rfl, List.dropLast_concat]
        exact fun hy => hacc y hy
      · simp only [if_neg hms]
        intro hy
        rcases List.mem_append.mp hy with hmem | hmem
        · exact hacc y hmem
        · rw [List.mem_singleton] at hmem
          rw [hmem]
          exact hms
    · simp only [hin, if_false]
      match hlast : acc.getLast? with
      | some last =>
        by_cases hls : last.slices = []
        · obtain ⟨hne, heq⟩ :=
            List.mem_getLast?_eq_getLast (Option.mem_def.mpr hlast)
          exact absurd hls
            (by rw [heq]; exact hacc _ (List.getLast_mem hne))
        · simp only [hls, if_neg hls]
          exact fun hy => hacc y hy
      | none =>
        exact fun hy => hacc y hy
  · exact hacc y hy

/-- The volume loop of `slice_volumes_inner` keeps only entries with a
non-empty slice vector, for any starting accumulator with that property. -/
theorem slice_volumes_inner_foldl_nonempty (vols : List MVolume) :
    ∀ acc : List VolumeSlices, (∀ x ∈ acc, x.slices ≠ []) →
      ∀ x ∈ vols.foldl slice_volumes_inner_step acc, x.slices ≠ [] := by
  induction vols with
  | nil =>
    intro acc hacc x hx
    exact hacc x hx
  | cons mv rest ih =>
    intro acc hacc x hx
    rw [List.foldl_cons] at hx
    exact ih (slice_volumes_inner_step acc mv)
      (slice_volumes_inner_step_nonempty acc mv hacc) x hx

/-- C5 (amended): `slice_volumes_inner` drops exactly the volumes whose
slice VECTOR ends up empty (empty mesh, no Z heights, or no Z inside the
volume ranges); every entry of the returned list has a non-empty slice
vector, but its polygon sets may still be empty at every Z height. -/
theorem slice_volumes_inner_entries_nonempty_vector (vols : List MVolume)
    (e : VolumeSlices) (he : e ∈ slice_volumes_inner vols) :
    e.slices ≠ [] :=
  slice_volumes_inner_foldl_nonempty vols []
    (by intro x hx; cases hx) e he

/-- Witness for C5 (amended): a volume with one non-empty slice survives and
its returned entry has a non-empty slice vector. -/
theorem slice_volumes_inner_entries_nonempty_vector_witness :
    (⟨0, [({((0 : ℤ), (0 : ℤ))} : PolySet)]⟩ : VolumeSlices).slices ≠ [] :=
  slice_volumes_inner_entries_nonempty_vector
    [⟨0, ModelVolumeType.modelPart, true, [{((0 : ℤ), (0 : ℤ))}]⟩]
    ⟨0, [{((0 : ℤ), (0 : ℤ))}]⟩ (by decide)

/-!
The streaming toolpath pipeline (`GCodeGenerator::process_layers`, both the
normal-mode and the sequential-mode variant, which share identical stage
logic).  The `smooth_path_interpolator` source filter increments
`layer_to_print_idx` from 0 and stops exactly when it reaches
`layers_to_print.size() + (m_pressure_equalizer ? 1 : 0)`, so it emits the
indices `0 .. size-1` plus the extra index `size` only when the pressure
equalizer is enabled.  The generator filter turns index `size` into
`LayerResult::make_nop_layer_result()` and every real index into
`process_layer(...)`, which constructs its result with
`nop_layer_result = false`.
-/

/-- `LayerResult` of GCode.hpp. -/
structure LayerResult where
  gcode : String
  layer_id : ℕ
  spiral_vase_enable : Bool
  cooling_buffer_flush : Bool
  nop_layer_result : Bool
deriving DecidableEq, Repr

/-- `LayerResult::make_nop_layer_result`: empty instruction text, layer id
`std::numeric_limits<coord_t>::max()` (coord_t is a 64-bit signed integer),
all flags cleared except the nop marker. -/
def LayerResult.make_nop_layer_result : LayerResult :=
  ⟨"", 9223372036854775807, false, false, true⟩

/-- The index at which the `smooth_path_interpolator` source filter stops
(`fc.stop()`): `layers_to_print.size() + (m_pressure_equalizer ? 1 : 0)`. -/
def interpolator_stop_index (num_layers : ℕ) (pressure_equalizer : Bool) :
    ℕ :=
  num_layers + (if pressure_equalizer then 1 else 0)

/-- The indices the source filter emits before stopping: `layer_to_print_idx`
counts up from 0, so these are `0, 1, …, interpolator_stop_index - 1`. -/
def interpolator_indices (num_layers : ℕ) (pressure_equalizer : Bool) :
    List ℕ :=
  List.range (interpolator_stop_index num_layers pressure_equalizer)

/-- The generator filter of `GCodeGenerator::process_layers`: the index equal
to `layers_to_print.size()` becomes the sentinel nop result; every real index
is handed to `process_layer` (an external stage, passed as a function). -/
def generator_filter (process_layer : ℕ → LayerResult) (num_layers : ℕ)
    (idx : ℕ) : LayerResult :=
  if idx = num_layers then LayerResult.make_nop_layer_result
  else process_layer idx

/-- The stream of `LayerResult`s the generator stage feeds into the filter
stages of the pipeline. -/
def process_layers_results (process_layer : ℕ → LayerResult)
    (num_layers : ℕ) (pressure_equalizer : Bool) : List LayerResult :=
  (interpolator_indices num_layers pressure_equalizer).map
    (generator_filter process_layer num_layers)

/-- C6: in both `GCodeGenerator::process_layers` variants, exactly one
sentinel no-op `LayerResult` is fed through the pipeline, after the last real
layer, if and only if the pressure-equalizer filter is enabled; when the
equalizer is disabled no no-op result is ever produced.  (`process_layer`
always constructs its result with the nop flag cleared, which is the
hypothesis on the external stage.) -/
theorem process_layers_nop_sentinel (process_layer : ℕ → LayerResult)
    (num_layers : ℕ) (pressure_equalizer : Bool)
    (hreal : ∀ i, i < num_layers →
      (process_layer i).nop_layer_result = false) :
    process_layers_results process_layer num_layers pressure_equalizer =
      (List.range num_layers).map process_layer ++
        (if pressure_equalizer then [LayerResult.make_nop_layer_result]
         else []) ∧
    (process_layers_results process_layer num_layers
        pressure_equalizer).countP (fun r => r.nop_layer_result) =
      (if pressure_equalizer then 1 else 0) := by
  have hmap : (List.range num_layers).map
      (generator_filter process_layer num_layers) =
      (List.range num_layers).map process_layer := by
    apply List.map_congr_left
    intro i hi
    rw [List.mem_range] at hi
    unfold generator_filter
    rw [if_neg (by omega)]
  have hshape : process_layers_results process_layer num_layers
      pressure_equalizer =
      (List.range num_layers).map process_layer ++
        (if pressure_equalizer then [LayerResult.make_nop_layer_result]
         else []) := by
    unfold process_layers_results interpolator_indices
    unfold interpolator_stop_index
    cases pressure_equalizer
    · simp only [Bool.false_eq_true, if_false, Nat.add_zero, List.append_nil]
      exact hmap
    · simp only [eq_self_iff_true, if_true]
      rw [List.range_succ, List.map_append, hmap]
      simp only [List.map_cons, List.map_nil]
      unfold generator_filter
      rw [if_pos rfl]
  refine ⟨hshape, ?_⟩
  rw [hshape, List.countP_append]
  have hzero : ((List.range num_layers).map process_layer).countP
      (fun r => r.nop_layer_result) = 0 := by
    rw [List.countP_eq_zero]
    intro r hr
    rw [List.mem_map] at hr
    obtain ⟨i, hi, rfl⟩ := hr
    rw [List.mem_range] at hi
    simp only [hreal i hi]
    exact Bool.false_ne_true
  rw [hzero]
  cases pressure_equalizer
  · simp
  · simp [LayerResult.make_nop_layer_result]

/-- Witness for C6: with two real layers and the pressure equalizer enabled
the stream is the two real results followed by the single nop sentinel. -/
theorem process_layers_nop_sentinel_witness :
    process_layers_results (fun i => ⟨"G1", i, false, false, false⟩) 2 true =
      [⟨"G1", 0, false, false, false⟩, ⟨"G1", 1, false, false, false⟩,
        LayerResult.make_nop_layer_result] ∧
    (process_layers_results (fun i => ⟨"G1", i, false, false, false⟩) 2
        true).countP (fun r => r.nop_layer_result) = 1 := by
  have h := process_layers_nop_sentinel
    (fun i => ⟨"G1", i, false, false, false⟩) 2 true
    (by intro i hi; rfl)
  refine ⟨?_, h.2⟩
  rw [h.1]
  rfl

/-!
The stateful filter stages of `GCodeGenerator::process_layers`.  The spiral
vase filter returns a nop `LayerResult` unchanged before touching the spiral
vase state machine; otherwise it calls `spiral_vase->enable(...)` and
rebuilds the result from `spiral_vase->process_layer(gcode, last_layer)`
with the nop flag defaulting to false.  The cooling filter returns
`in.gcode` directly for a nop result and otherwise calls
`cooling_buffer->process_layer(...)`.  The external state machines are
passed here as opaque functions.
-/

/-- The spiral vase pipeline filter: `process` stands for the external
`SpiralVase::process_layer` (taking the instruction text, the enable flag
handed to `spiral_vase->enable`, and the last-layer flag). -/
def spiral_vase_filter (process : String → Bool → Bool → String)
    (num_layers : ℕ) (lr : LayerResult) : LayerResult :=
  if lr.nop_layer_result then lr
  else
    { gcode := process lr.gcode lr.spiral_vase_enable
        (decide (lr.layer_id = num_layers - 1)),
      layer_id := lr.layer_id,
      spiral_vase_enable := lr.spiral_vase_enable,
      cooling_buffer_flush := lr.cooling_buffer_flush,
      nop_layer_result := false }

/-- The cooling pipeline filter: `process` stands for the external
`CoolingBuffer::process_layer` (taking the instruction text, the layer id
and the flush flag). -/
def cooling_filter (process : String → ℕ → Bool → String)
    (lr : LayerResult) : String :=
  if lr.nop_layer_result then lr.gcode
  else process lr.gcode lr.layer_id lr.cooling_buffer_flush

/-- C10: a `LayerResult` with the nop flag set passes the spiral vase filter
unchanged and the cooling filter returns its instruction text without
processing; since `make_nop_layer_result` carries the empty string, a
sentinel no-op layer contributes no text to the output stream, whatever the
external state machines do. -/
theorem nop_layer_result_contributes_no_text
    (svprocess : String → Bool → Bool → String)
    (clprocess : String → ℕ → Bool → String) (num_layers : ℕ)
    (lr : LayerResult) (hnop : lr.nop_layer_result = true) :
    spiral_vase_filter svprocess num_layers lr = lr ∧
    cooling_filter clprocess lr = lr.gcode ∧
    cooling_filter clprocess
      (spiral_vase_filter svprocess num_layers
        LayerResult.make_nop_layer_result) = "" := by
  refine ⟨?_, ?_, ?_⟩
  · unfold spiral_vase_filter
    rw [if_pos hnop]
  · unfold cooling_filter
    rw [if_pos hnop]
  · rfl

/-- Witness for C10 at the sentinel itself. -/
theorem nop_layer_result_contributes_no_text_witness :
    spiral_vase_filter (fun g _ _ => g ++ ";sv") 5
        LayerResult.make_nop_layer_result =
      LayerResult.make_nop_layer_result ∧
    cooling_filter (fun g _ _ => g ++ ";cool")
        LayerResult.make_nop_layer_result =
      LayerResult.make_nop_layer_result.gcode ∧
    cooling_filter (fun g _ _ => g ++ ";cool")
      (spiral_vase_filter (fun g _ _ => g ++ ";sv") 5
        LayerResult.make_nop_layer_result) = "" :=
  nop_layer_result_contributes_no_text (fun g _ _ => g ++ ";sv")
    (fun g _ _ => g ++ ";cool") 5 LayerResult.make_nop_layer_result rfl

/-!
The onion loop of `PerimeterGenerator::process_classic`.  Iteration `i = 0`
insets the island by `ext_perimeter_width / 2` (with thin walls enabled the
`offset2_ex(-(ext_perimeter_width/2 + ext_min_spacing/2 - 1),
+(ext_min_spacing/2 - 1))` pair nets the same inset distance); iteration
`i = 1` uses `distance = ext_perimeter_spacing2`, the scaled mean of the
external and the internal perimeter spacing; every iteration `i ≥ 2` uses
`distance = perimeter_spacing`.  The loop breaks after computing the
offsets when `i > loop_number` (the extra gap-collection iteration) and
breaks before continuing when `i == loop_number` and gap fill is disabled
(`!has_gap_fill || fill_density == 0`); we assume no intermediate offset
result is empty (otherwise the loop ends early with fewer insets).
-/

/-- The spacing/width parameters of the classic perimeter generator
(scaled integers as in the source). -/
structure ClassicPerimeterFlows where
  perimeter_spacing : ℤ
  ext_perimeter_width : ℤ
  ext_perimeter_spacing : ℤ
deriving DecidableEq, Repr

/-- `ext_perimeter_spacing2`: the scaled mean of the external and the
internal perimeter spacing (the spacing between an external and an internal
perimeter). -/
def ext_perimeter_spacing2 (f : ClassicPerimeterFlows) : ℤ :=
  (f.ext_perimeter_spacing + f.perimeter_spacing) / 2

/-- The inset distance iteration `i` of the onion loop of `process_classic`
applies to the current polygon set `last`. -/
def classic_inset_distance (f : ClassicPerimeterFlows) (i : ℕ) : ℤ :=
  if i = 0 then f.ext_perimeter_width / 2
  else if i = 1 then ext_perimeter_spacing2 f
  else f.perimeter_spacing

/-- The sequence of inset distances applied by the onion loop from iteration
`i` on, with explicit fuel (the loop performs at most `loop_number + 2`
iterations, so the initial fuel `loop_number + 2` is never exhausted). -/
def classic_onion_go (f : ClassicPerimeterFlows)
    (has_gap_fill fill_density_zero : Bool) (loop_number : ℕ) :
    ℕ → ℕ → List ℤ
  | 0, _ => []
  | fuel + 1, i =>
    classic_inset_distance f i ::
      (if loop_number < i then []
       else if i = loop_number ∧
           (has_gap_fill = false ∨ fill_density_zero = true) then []
       else classic_onion_go f has_gap_fill fill_density_zero loop_number
         fuel (i + 1))

/-- The inset distances the onion loop of `process_classic` applies,
in order, when no intermediate offset result is empty. -/
def classic_onion_inset_distances (f : ClassicPerimeterFlows)
    (has_gap_fill fill_density_zero : Bool) (loop_number : ℕ) : List ℤ :=
  classic_onion_go f has_gap_fill fill_density_zero loop_number
    (loop_number + 2) 0

/-- From iteration 2 on, every inset of the onion loop is by the internal
perimeter spacing; `M` is the index of the final iteration. -/
theorem classic_onion_go_spacing_tail (f : ClassicPerimeterFlows)
    (gap dz : Bool) (L M : ℕ)
    (hM : M = (if gap = true ∧ dz = false then L + 1 else L)) :
    ∀ fuel i, 2 ≤ i → i ≤ M → M - i < fuel →
      classic_onion_go f gap dz L fuel i =
        List.replicate (M - i + 1) f.perimeter_spacing := by
  have hcases : (gap = true ∧ dz = false ∧ M = L + 1) ∨
      ((gap = false ∨ dz = true) ∧ M = L) := by
    cases gap <;> cases dz <;> simp_all
  intro fuel
  induction fuel with
  | zero =>
    intro i h2 hi hfuel
    omega
  | succ fuel ih =>
    intro i h2 hi hfuel
    have hd : classic_inset_distance f i = f.perimeter_spacing := by
      unfold classic_inset_distance
      rw [if_neg (by omega), if_neg (by omega)]
    unfold classic_onion_go
    rw [hd]
    by_cases hLi : L < i
    · rw [if_pos hLi]
      have hMi : M - i = 0 := by rcases hcases with ⟨-, -, h⟩ | ⟨-, h⟩ <;> omega
      rw [hMi]
      rfl
    · rw [if_neg hLi]
      by_cases hstop : i = L ∧ (gap = false ∨ dz = true)
      · rw [if_pos hstop]
        have hMi : M - i = 0 := by
          rcases hcases with ⟨hg, hdz, -⟩ | ⟨-, hML⟩
          · rcases hstop.2 with hc | hc
            · rw [hg] at hc
              cases hc
            · rw [hdz] at hc
              cases hc
          · omega
        rw [hMi]
        rfl
      · rw [if_neg hstop]
        have hi1 : i + 1 ≤ M := by
          rcases hcases with ⟨-, -, hM1⟩ | ⟨hor, hML⟩
          · omega
          · by_cases hiL : i = L
            · exact absurd ⟨hiL, hor⟩ hstop
            · omega
        rw [ih (i + 1) (by omega) hi1 (by omega)]
        rw [show M - i + 1 = (M - (i + 1) + 1) + 1 from by omega]
        rfl

/-- Counterexample for C7: with external perimeter width 12, external
perimeter spacing 10 and internal perimeter spacing 20 (scaled units), the
onion loop of `process_classic` with 3 perimeters (`loop_number = 2`) and
gap fill disabled applies the inset distances `[6, 15, 20]`: the first inset
is 6 (half the external width, not the external spacing 10) and the second
inset is 15 (the mean of external and internal spacing, not the internal
spacing 20). -/
theorem process_classic_inset_distances_counterexample :
    classic_onion_inset_distances ⟨20, 12, 10⟩ false false 2 =
      [6, 15, 20] ∧
    ((6 : ℤ) ≠ 10 ∧ (15 : ℤ) ≠ 20) := by
  constructor
  · rfl
  · constructor
    · decide
    · decide

/-- C7 (amended): in `process_classic`, the very first inset of the island
polygon is by half the external-perimeter width, the second inset is by
`ext_perimeter_spacing2` (the mean of the external and the internal
perimeter spacing), and every inset after the second is by the internal
perimeter spacing; with gap collection enabled the tail has `loop_number`
internal-spacing insets (including the extra gap-detection iteration),
otherwise `loop_number - 1`. -/
theorem process_classic_inset_distances (f : ClassicPerimeterFlows)
    (gap dz : Bool) (L : ℕ) (hL : 1 ≤ L) :
    classic_onion_inset_distances f gap dz L =
      f.ext_perimeter_width / 2 :: ext_perimeter_spacing2 f ::
        List.replicate (if gap = true ∧ dz = false then L else L - 1)
          f.perimeter_spacing := by
  unfold classic_onion_inset_distances
  unfold classic_onion_go
  rw [if_neg (by omega : ¬L < 0), if_neg (by rintro ⟨h, -⟩; omega)]
  have hd0 : classic_inset_distance f 0 = f.ext_perimeter_width / 2 := rfl
  rw [hd0]
  unfold classic_onion_go
  have hd1 : classic_inset_distance f 1 = ext_perimeter_spacing2 f := rfl
  rw [hd1, if_neg (by omega : ¬L < 1)]
  by_cases hstop : 1 = L ∧ (gap = false ∨ dz = true)
  · rw [if_pos hstop]
    have : (if gap = true ∧ dz = false then L else L - 1) = 0 := by
      rcases hstop.2 with hc | hc
      · rw [if_neg (by rw [hc]; rintro ⟨h, -⟩; cases h)]
        omega
      · rw [if_neg (by rw [hc]; rintro ⟨-, h⟩; cases h)]
        omega
    rw [this]
    rfl
  · rw [if_neg hstop]
    by_cases hgd : gap = true ∧ dz = false
    · have htail := classic_onion_go_spacing_tail f gap dz L (L + 1)
        (by rw [if_pos hgd]) L 2 (by omega) (by omega) (by omega)
      rw [htail, if_pos hgd, show L + 1 - 2 + 1 = L from by omega]
    · have hor : gap = false ∨ dz = true := by
        cases gap <;> cases dz <;> simp_all
      have hL2 : 2 ≤ L := by
        rcases Nat.lt_or_ge L 2 with h | h
        · exact absurd ⟨by omega, hor⟩ hstop
        · exact h
      have htail := classic_onion_go_spacing_tail f gap dz L L
        (by rw [if_neg hgd]) L 2 (by omega) (by omega) (by omega)
      rw [htail, if_neg hgd, show L - 2 + 1 = L - 1 from by omega]

/-- Witness for C7 (amended) at `loop_number = 3` with gap collection: the
loop applies half the external width, then the mean spacing, then three
internal-spacing insets. -/
theorem process_classic_inset_distances_witness :
    classic_onion_inset_distances ⟨20, 12, 10⟩ true false 3 =
      [6, 15, 20, 20, 20] := by
  have h := process_classic_inset_distances ⟨20, 12, 10⟩ true false 3
    (by omega)
  rw [h]
  rfl

/-!
The classic loop hierarchy (`PerimeterGeneratorLoop`) and the role selection
of `traverse_loops_classic`.  `is_internal_contour()` returns true when the
loop is a contour containing no contour among its children — with no depth
condition; the source comment states explicitly that the role is set to
`elrContourInternalPerimeter` also when the loop is both internal and
external (a sole contour loop of depth 0).  `traverse_loops_classic` calls
itself on `loop.children`, so each nesting level processes one flat list of
loops; the role assignment below is therefore stated for an arbitrary list
of loops, covering every level of the recursion.
-/

/-- A node of the classic perimeter hierarchy `PerimeterGeneratorLoop`:
contour flag (CCW contour versus CW hole), nesting depth (0 is the external
perimeter) and child loops. -/
inductive PGLoop : Type where
  | node : Bool → ℕ → List PGLoop → PGLoop

/-- The `is_contour` flag of a loop. -/
def PGLoop.isContour : PGLoop → Bool
  | PGLoop.node c _ _ => c

/-- The nesting depth of a loop. -/
def PGLoop.depth : PGLoop → ℕ
  | PGLoop.node _ d _ => d

/-- The child loops of a loop. -/
def PGLoop.children : PGLoop → List PGLoop
  | PGLoop.node _ _ ch => ch

/-- `PerimeterGeneratorLoop::is_external`: depth 0. -/
def PGLoop.is_external (l : PGLoop) : Bool :=
  decide (l.depth = 0)

/-- `PerimeterGeneratorLoop::is_internal_contour`: a contour containing no
other contour among its children (no depth condition). -/
def PGLoop.is_internal_contour (l : PGLoop) : Bool :=
  l.isContour && l.children.all (fun c => !c.isContour)

/-- The extrusion loop roles relevant to `traverse_loops_classic`. -/
inductive ExtrusionLoopRole where
  | elrDefault
  | elrContourInternalPerimeter
deriving DecidableEq, Repr

/-- The loop role chosen by `traverse_loops_classic` for one loop. -/
def traverse_loop_role (l : PGLoop) : ExtrusionLoopRole :=
  if l.is_internal_contour then
    ExtrusionLoopRole.elrContourInternalPerimeter
  else ExtrusionLoopRole.elrDefault

/-- One level of `traverse_loops_classic`: every loop of the list is emitted
with its chosen role (children lists are handled by the recursive calls,
which are further instances of the same function on the child lists). -/
def traverse_level_roles (loops : List PGLoop) :
    List (PGLoop × ExtrusionLoopRole) :=
  loops.map (fun l => (l, traverse_loop_role l))

/-- Counterexample for C8: a sole external contour loop (depth 0, no
children) is emitted with the distinguished internal-contour role although
it is not internal (its depth is 0), contradicting the claim that the role
is given exactly to loops of depth at least 1. -/
theorem traverse_loops_classic_role_counterexample :
    traverse_level_roles [PGLoop.node true 0 []] =
      [(PGLoop.node true 0 [],
        ExtrusionLoopRole.elrContourInternalPerimeter)] ∧
    (PGLoop.node true 0 []).depth = 0 ∧
    (PGLoop.node true 0 []).is_external = true := by
  refine ⟨rfl, rfl, rfl⟩

/-- C8 (amended): in `traverse_loops_classic` a perimeter loop is emitted
with the distinguished internal-contour role `elrContourInternalPerimeter`
exactly when it is a contour with no child contours — regardless of its
depth, so a sole external contour also receives the role; every other loop
(every hole, and every contour with a child contour) gets the default
role. -/
theorem traverse_loops_classic_role (loops : List PGLoop)
    (l : PGLoop) (r : ExtrusionLoopRole)
    (hmem : (l, r) ∈ traverse_level_roles loops) :
    (r = ExtrusionLoopRole.elrContourInternalPerimeter ↔
      l.isContour = true ∧ ∀ c ∈ l.children, c.isContour = false) := by
  unfold traverse_level_roles at hmem
  rw [List.mem_map] at hmem
  obtain ⟨x, hx, heq⟩ := hmem
  have hl : x = l := congrArg Prod.fst heq
  have hr : traverse_loop_role x = r := congrArg Prod.snd heq
  rw [hl] at hr
  rw [← hr]
  unfold traverse_loop_role
  split
  next h =>
    simp only [true_iff]
    unfold PGLoop.is_internal_contour at h
    rw [Bool.and_eq_true] at h
    refine ⟨h.1, ?_⟩
    intro c hc
    have := (List.all_eq_true.mp h.2) c hc
    rw [Bool.not_eq_true'] at this
    exact this
  next h =>
    constructor
    · intro hc
      cases hc
    · intro hcontr
      exfalso
      apply h
      unfold PGLoop.is_internal_contour
      rw [Bool.and_eq_true]
      refine ⟨hcontr.1, ?_⟩
      rw [List.all_eq_true]
      intro c hc
      rw [Bool.not_eq_true']
      exact hcontr.2 c hc

/-- Witness for C8 (amended): a depth-1 contour with one hole child is
emitted with the internal-contour role and satisfies the characterization. -/
theorem traverse_loops_classic_role_witness :
    ((ExtrusionLoopRole.elrContourInternalPerimeter =
        ExtrusionLoopRole.elrContourInternalPerimeter) ↔
      (PGLoop.node true 1 [PGLoop.node false 2 []]).isContour = true ∧
        ∀ c ∈ (PGLoop.node true 1 [PGLoop.node false 2 []]).children,
          c.isContour = false) :=
  traverse_loops_classic_role
    [PGLoop.node true 1 [PGLoop.node false 2 []]]
    (PGLoop.node true 1 [PGLoop.node false 2 []])
    ExtrusionLoopRole.elrContourInternalPerimeter
    (List.mem_singleton.mpr rfl)

/-!
Removal of trailing empty layers in `PrintObject::slice_volumes`:
`while (!m_layers.empty()) { if (!m_layers.back()->empty()) break;
delete layer; m_layers.pop_back(); }` followed by
`if (!m_layers.empty()) m_layers.back()->upper_layer = nullptr;`.
The pop-from-the-back loop is the removal of the longest all-empty suffix,
expressed below by reversing, dropping the empty head run and reversing
back; the `upper_layer` pointer is modelled as an optional index with
`none` for nullptr.  The trim is not the end of `slice_volumes`: the
make_slices block that follows (and runs before the function returns)
applies the negative XY size compensation
`offset_ex(..., xy_compensation_scaled)` to every single-region layer, and
a negative offset can empty the last layer again without any further
removal — so the no-trailing-empty-layer invariant holds at the trim
point, not necessarily at return.
-/

/-- A layer of the layer stack as relevant to trailing-empty-layer removal:
the slice polygon sets of its LayerRegions and the `upper_layer` link
(`none` models nullptr). -/
structure LayerStackEntry where
  regions : List PolySet
  upper_layer : Option ℕ
deriving DecidableEq

/-- Modelled from the spec: `Layer::empty()`, whose translation unit is not
part of this repository snapshot (only its callers are).  Per the data model
a Layer owns the slice surfaces of its LayerRegions; a layer is empty when
every region polygon set is empty. -/
def LayerStackEntry.layer_is_empty (l : LayerStackEntry) : Bool :=
  l.regions.all (fun r => decide (r = ∅))

/-- The pop-from-the-back loop of `PrintObject::slice_volumes`: remove the
longest suffix of layers for which `Layer::empty()` holds. -/
def pop_trailing_empty (layers : List LayerStackEntry) :
    List LayerStackEntry :=
  (layers.reverse.dropWhile (fun l => l.layer_is_empty)).reverse

/-- The `m_layers.back()->upper_layer = nullptr` statement guarded by
non-emptiness. -/
def null_last_upper (layers : List LayerStackEntry) :
    List LayerStackEntry :=
  match layers.getLast? with
  | none => layers
  | some last => layers.dropLast ++ [{ last with upper_layer := none }]

/-- The tail block of `PrintObject::slice_volumes`: pop empty layers from
the back, then null the upper link of the new last layer. -/
def remove_trailing_empty_layers (layers : List LayerStackEntry) :
    List LayerStackEntry :=
  null_last_upper (pop_trailing_empty layers)

/-- C9 (amended): immediately after the trailing-empty-layer removal inside
`PrintObject::slice_volumes`, the layer stack contains no trailing empty
layers: either the layer list is empty, or its last layer is non-empty and
that last layer's `upper_layer` pointer is null.  The invariant is
guaranteed at the trim point only: the negative-XY-compensation pass of the
following make_slices block can empty the last layer again without removing
it (see the counterexample), so it need not hold when `slice_volumes`
returns. -/
theorem slice_volumes_no_trailing_empty_layers
    (layers : List LayerStackEntry) :
    remove_trailing_empty_layers layers = [] ∨
    ∃ last, (remove_trailing_empty_layers layers).getLast? = some last ∧
      last.layer_is_empty = false ∧ last.upper_layer = none := by
  unfold remove_trailing_empty_layers pop_trailing_empty
  cases hdrop : layers.reverse.dropWhile (fun l => l.layer_is_empty) with
  | nil =>
    left
    rfl
  | cons x xs =>
    right
    have hx : x.layer_is_empty = false := by
      have h := List.head?_dropWhile_not (fun l => l.layer_is_empty)
        layers.reverse
      rw [hdrop] at h
      exact h
    have hlast : (x :: xs).reverse.getLast? = some x := by
      rw [List.getLast?_reverse]
      rfl
    unfold null_last_upper
    rw [hlast]
    refine ⟨{ x with upper_layer := none }, ?_, hx, rfl⟩
    simp only [List.getLast?_concat]

/-- Discrete erosion: the extensional model of a polygon offset by the
negative distance `-k`.  A point survives when its whole Chebyshev
`k`-neighbourhood lies inside the set, so a region narrower than the shrink
distance vanishes — exactly as a polygon offset inward by more than its
half-width does. -/
def erode (s : PolySet) (k : ℕ) : PolySet :=
  s.filter (fun p => ∀ dx ∈ Finset.Icc (-(k : ℤ)) (k : ℤ),
    ∀ dy ∈ Finset.Icc (-(k : ℤ)) (k : ℤ), ((p.1 + dx, p.2 + dy) : Pt) ∈ s)

/-- The negative XY size compensation applied per layer by the make_slices
block of `PrintObject::slice_volumes` after the trailing-empty-layer trim:
for a single-region layer with `xy_compensation_scaled < 0` (and elephant
foot compensation inactive) the region polygons are replaced by
`offset_ex(..., xy_compensation_scaled)`, instantiated here with discrete
erosion for the external polygon-offset capability. -/
def apply_negative_xy_compensation (xy_compensation_scaled : ℤ)
    (layers : List LayerStackEntry) : List LayerStackEntry :=
  layers.map (fun l =>
    if l.regions.length = 1 ∧ xy_compensation_scaled < 0 then
      { l with regions :=
          l.regions.map (fun r => erode r (-xy_compensation_scaled).toNat) }
    else l)

/-- The layer stack at the return of `PrintObject::slice_volumes` (painting
and interlocking disabled): the trailing-empty-layer trim followed by the
make_slices compensation pass. -/
def slice_volumes_final_stack (xy_compensation_scaled : ℤ)
    (layers : List LayerStackEntry) : List LayerStackEntry :=
  apply_negative_xy_compensation xy_compensation_scaled
    (remove_trailing_empty_layers layers)

/-- A two-layer stack: the bottom layer holds a 3x3 block, the top layer a
single point.  The top layer is non-empty, so the trim keeps it — but one
unit of negative XY compensation erodes it away. -/
def exampleLayerStack : List LayerStackEntry :=
  [⟨[{(0, 0), (0, 1), (0, 2), (1, 0), (1, 1), (1, 2),
      (2, 0), (2, 1), (2, 2)}], some 1⟩,
   ⟨[{(1, 1)}], none⟩]

/-- Counterexample for C9: on `exampleLayerStack` with
`xy_size_compensation` scaled to -1, the stack `slice_volumes` returns is
non-empty and its last layer has become empty (while its lower neighbour
is still non-empty), violating the claimed post-return invariant that the
last layer of a non-empty stack is non-empty. -/
theorem slice_volumes_trailing_empty_after_compensation :
    slice_volumes_final_stack (-1) exampleLayerStack ≠ [] ∧
    (slice_volumes_final_stack (-1) exampleLayerStack).getLast? =
      some ⟨[∅], none⟩ ∧
    (⟨[(∅ : PolySet)], none⟩ : LayerStackEntry).layer_is_empty = true := by
  refine ⟨by decide, by decide, rfl⟩

end Slic3r
